import Mathlib

/-!
Shallow embedding of the mcg chat TUI core (Go sources, packages `tui` and
`extensions`) in Lean 4, together with proofs of the specification claims.

Modelling conventions:
* Go strings are modelled as `List Char`.  All the operations the claims
  depend on (length comparisons, prefix slicing, rune iteration in
  `splitArgs`, `strings.SplitN` on a single-character separator) act the
  same on byte strings and on char lists for the inputs the claims use.
* Go `error` values are modelled as `Option (List Char)` — `none` is a nil
  error, `some e` carries the error text produced by `fmt.Errorf`.
* Go maps are modelled as association lists with `List.lookup`; indexing a
  missing key of a map of maps yields the zero value (empty list), as in Go.
* The bubbletea `Update` event loop is modelled as a pure step function
  `ChatModel.update : ChatModel → Ev → ChatModel × List Eff`, where `Eff`
  records the observable commands the Go code returns or the synchronous
  collaborator calls it makes (LLM request, summary request, extension
  dispatch, persistence calls, animation reschedules, quit).  The textarea
  widget is external UI state; the text it holds at the moment Enter is
  pressed is carried on the `keyEnter` event, and the internal
  textarea/viewport/spinner sub-commands of the Go code are not modelled
  as effects.
-/

namespace Mcg

/-- `tui.Message` from chat_model.go.  `Time` is the creation timestamp
(an abstract tick count). -/
structure Message where
  Content : List Char
  VisibleContent : List Char
  IsUser : Bool
  Time : Nat
  IsComplete : Bool
  IsSystem : Bool
deriving Repr, DecidableEq, Inhabited

/-- The fields of `tui.ChatModel` that the session logic reads or writes.
`hasDB` models whether the `db` field is nil. The viewport, textarea and
spinner widgets are external rendering state and carry no session logic. -/
structure ChatModel where
  messages : List Message
  waitingForResp : Bool
  typingActive : Bool
  typingSpeed : Int
  thinkingDots : Nat
  width : Nat
  height : Nat
  ready : Bool
  quitting : Bool
  hasDB : Bool
deriving Repr, DecidableEq

/-- Events consumed by `ChatModel.Update`: key presses, window resizes,
timer ticks and asynchronous results. `keyEnter` carries the current
textarea contents and the current time; the async results carry the fields
of the Go `llmResponse` / `extCommandResponse` messages. -/
inductive Ev where
  | keyCtrlC
  | keyEnterAlt
  | keyEnter (textareaValue : List Char) (now : Nat)
  | windowSize (w h : Nat)
  | llmResp (response : List Char) (err : Option (List Char))
      (isSystemResponse : Bool) (now : Nat)
  | extResp (extName cmdName : List Char) (response : List Char)
      (err : Option (List Char)) (now : Nat)
  | spinnerTick
  | thinkingTick
  | typingTick
deriving Repr, DecidableEq

/-- Observable commands emitted by a step of `ChatModel.Update`:
the `tea.Cmd`s the Go code returns (LLM request, summary request,
extension dispatch, help rendering, animation reschedules, quit) and the
synchronous persistence calls it makes (`db.AddMessage`,
`db.GenerateTitle`). -/
inductive Eff where
  | quit
  | getResponse (input : List Char)
  | getSummary
  | execExtension (extName cmdName : List Char) (args : List (List Char))
  | handleHelp
  | typingAnim
  | thinkingAnim
  | dbAddMessage (role content : List Char)
  | dbGenerateTitle
deriving Repr, DecidableEq

/-- ASCII fragment of Go's `unicode.IsSpace`, as used by
`strings.TrimSpace`. -/
def isSpaceChar (c : Char) : Bool :=
  c = ' ' || c = '\t' || c = '\n' || c = '\x0b' || c = '\x0c' || c = '\r'

/-- `strings.TrimSpace`. -/
def trimSpace (s : List Char) : List Char :=
  ((s.dropWhile isSpaceChar).reverse.dropWhile isSpaceChar).reverse

/-- `strings.SplitN s (String.singleton sep) n`, fuel-driven recursion on
the first occurrence of the separator.  `fuel ≥ s.length` suffices for the
fuel never to run out. -/
def splitNAux (sep : Char) : Nat → Nat → List Char → List (List Char)
  | _, 0, _ => []
  | _, 1, s => [s]
  | 0, _ + 2, s => [s]
  | fuel + 1, n + 2, s =>
    match s.dropWhile (fun c => !(c = sep : Bool)) with
    | [] => [s]
    | _ :: rest => s.takeWhile (fun c => !(c = sep : Bool)) ::
        splitNAux sep fuel (n + 1) rest

/-- `strings.SplitN` specialised to a single-character separator (the code
only ever splits on `" "`). -/
def splitN (sep : Char) (n : Nat) (s : List Char) : List (List Char) :=
  splitNAux sep (s.length + 1) n s

/-- The loop body of `tui.splitArgs`: `args` is the accumulated argument
list, `current` the token under construction, `inQuotes` the quote mode. -/
def splitArgsAux : List Char → List (List Char) → List Char → Bool →
    List (List Char)
  | [], args, current, _ =>
    if current.length > 0 then args ++ [current] else args
  | c :: rest, args, current, inQuotes =>
    if c = '"' ∨ c = '\x27' then
      splitArgsAux rest args current (!inQuotes)
    else if c = ' ' ∧ inQuotes = false then
      if current.length > 0 then
        splitArgsAux rest (args ++ [current]) [] inQuotes
      else
        splitArgsAux rest args current inQuotes
    else
      splitArgsAux rest args (current ++ [c]) inQuotes

/-- `tui.splitArgs`: split a string into arguments, a `'` or `"` toggling
an inside-quotes mode during which spaces do not end a token. -/
def splitArgs (s : List Char) : List (List Char) :=
  splitArgsAux s [] [] false

/-- The welcome text built by `tui.NewChatModel` from the current LLM name. -/
def welcomeText (currentLLM : List Char) : List Char :=
  "Welcome to McGraph Chat! Current LLM: ".data ++ currentLLM ++
  "\nType your questions and press Enter to submit.\nPress Alt+Enter for a new line.\nType Ctrl+C to quit.".data

/-- `tui.NewChatModel`.  `hasDB` is whether a persistence collaborator was
supplied; `loadedMessages` is the restored log of a continued conversation
(empty for a fresh session); `currentLLM` is `llm.GetCurrentLLM()`;
`now` the creation time. -/
def NewChatModel (hasDB : Bool) (loadedMessages : List Message)
    (currentLLM : List Char) (now : Nat) : ChatModel :=
  let isContinuingConversation := loadedMessages.length > 0
  let messages : List Message :=
    if isContinuingConversation then loadedMessages
    else
      [{ Content := welcomeText currentLLM,
         VisibleContent := welcomeText currentLLM,
         IsUser := false, Time := now, IsComplete := true, IsSystem := false }]
  { messages := messages, waitingForResp := false, typingActive := false,
    typingSpeed := 4, thinkingDots := 1, width := 0, height := 0,
    ready := false, quitting := false, hasDB := hasDB }

/-- The "missing command" system text of the `/extension`-without-command
branch of `ChatModel.Update`. -/
def missingCmdText (extName : List Char) : List Char :=
  "Please specify a command for the '".data ++ extName ++
  "' extension. Type /help for available commands.".data

/-- The system placeholder text appended on `/summarize`. -/
def generatingText : List Char := "Generating conversation summary...".data

/-- One step of `tui.ChatModel.Update`: consumes an event, returns the
next model and the observable commands issued.  The write-only `err`
logging field of the Go struct is omitted (it is never read), and the
textarea/viewport/spinner widget sub-updates at the bottom of the Go
function are rendering-only and emit no modelled effect. -/
def ChatModel.update (m : ChatModel) (ev : Ev) : ChatModel × List Eff :=
  match ev with
  | .keyCtrlC => ({ m with quitting := true }, [.quit])
  | .keyEnterAlt => (m, [])
  | .keyEnter taValue now =>
    if !m.waitingForResp && !m.typingActive then
      let input := trimSpace taValue
      if input ≠ [] then
        if input = "/summarize".data then
          ({ m with
              waitingForResp := true,
              messages := m.messages ++
                [{ Content := generatingText, VisibleContent := generatingText,
                   IsUser := false, Time := now, IsComplete := true,
                   IsSystem := true }] },
           [.getSummary])
        else if ("/".data).isPrefixOf input ∧ 1 < input.length then
          let parts := splitN ' ' 3 (input.drop 1)
          let extName := parts.headD []
          if extName = "help".data then
            (m, [.handleHelp])
          else if 2 ≤ parts.length then
            let cmdName := parts.getD 1 []
            let args : List (List Char) :=
              if 2 < parts.length then splitArgs (parts.getD 2 []) else []
            (m, [.execExtension extName cmdName args])
          else
            ({ m with messages := m.messages ++
                [{ Content := missingCmdText extName,
                   VisibleContent := missingCmdText extName,
                   IsUser := false, Time := now, IsComplete := true,
                   IsSystem := true }] },
             [])
        else
          let m1 : ChatModel := { m with messages := m.messages ++
              [{ Content := input, VisibleContent := input, IsUser := true,
                 Time := now, IsComplete := true, IsSystem := false }] }
          let dbEffs : List Eff :=
            if m.hasDB then
              [Eff.dbAddMessage "user".data input] ++
                (if m1.messages.length = 2 then [Eff.dbGenerateTitle] else [])
            else []
          ({ m1 with waitingForResp := true }, dbEffs ++ [.getResponse input])
      else (m, [])
    else (m, [])
  | .windowSize w h => ({ m with width := w, height := h, ready := true }, [])
  | .llmResp resp err isSys now =>
    let m0 := { m with waitingForResp := false }
    match err with
    | some e =>
      let errText := "Error: ".data ++ e
      ({ m0 with messages := m0.messages ++
          [{ Content := errText, VisibleContent := errText, IsUser := false,
             Time := now, IsComplete := true, IsSystem := false }] }, [])
    | none =>
      if isSys then
        let newMsg : Message :=
          { Content := resp, VisibleContent := [], IsUser := false,
            Time := now, IsComplete := false, IsSystem := true }
        let msgs :=
          match m0.messages.getLast? with
          | some lastMsg =>
            if lastMsg.IsSystem then m0.messages.dropLast ++ [newMsg]
            else m0.messages ++ [newMsg]
          | none => m0.messages ++ [newMsg]
        ({ m0 with messages := msgs, typingActive := true }, [.typingAnim])
      else
        let newMsg : Message :=
          { Content := resp, VisibleContent := [], IsUser := false,
            Time := now, IsComplete := false, IsSystem := false }
        let dbEffs : List Eff :=
          if m.hasDB then [Eff.dbAddMessage "assistant".data resp] else []
        ({ m0 with messages := m0.messages ++ [newMsg], typingActive := true },
         dbEffs ++ [.typingAnim])
  | .extResp extName cmdName resp err now =>
    let m0 := { m with waitingForResp := false }
    match err with
    | some e =>
      let content := "Error executing command /".data ++ extName ++ " ".data ++
        cmdName ++ ": ".data ++ e
      ({ m0 with messages := m0.messages ++
          [{ Content := content, VisibleContent := content, IsUser := false,
             Time := now, IsComplete := true, IsSystem := true }] }, [])
    | none =>
      let content := "### Result of /".data ++ extName ++ " ".data ++ cmdName ++
        "\n\n".data ++ resp
      ({ m0 with
          messages := m0.messages ++
            [{ Content := content, VisibleContent := [], IsUser := false,
               Time := now, IsComplete := false, IsSystem := true }],
          typingActive := true }, [.typingAnim])
  | .spinnerTick => (m, [])
  | .thinkingTick =>
    let dots := if m.waitingForResp then m.thinkingDots % 3 + 1 else m.thinkingDots
    ({ m with thinkingDots := dots }, [.thinkingAnim])
  | .typingTick =>
    if m.typingActive then
      match m.messages.getLast? with
      | some lastMsg =>
        if !lastMsg.IsUser && !lastMsg.IsComplete then
          let fullContent := lastMsg.Content
          let currentVisible := lastMsg.VisibleContent
          let remainingChars : Int :=
            (fullContent.length : Int) - (currentVisible.length : Int)
          let charsToAdd : Int :=
            if remainingChars < m.typingSpeed then remainingChars else m.typingSpeed
          if 0 < charsToAdd then
            let newVisible :=
              fullContent.take (currentVisible.length + charsToAdd.toNat)
            if newVisible.length < fullContent.length then
              ({ m with messages := m.messages.dropLast ++
                  [{ lastMsg with VisibleContent := newVisible }] },
               [.typingAnim])
            else
              ({ m with
                  messages := m.messages.dropLast ++
                    [{ lastMsg with VisibleContent := newVisible,
                                    IsComplete := true }],
                  typingActive := false }, [])
          else
            if fullContent.length ≤ currentVisible.length then
              ({ m with
                  messages := m.messages.dropLast ++
                    [{ lastMsg with IsComplete := true }],
                  typingActive := false }, [])
            else (m, [])
        else (m, [])
      | none => (m, [])
    else (m, [])

/-- The state component of one `Update` step. -/
def stepState (m : ChatModel) (ev : Ev) : ChatModel :=
  (m.update ev).1

/-- The effect component of one `Update` step. -/
def stepEffs (m : ChatModel) (ev : Ev) : List Eff :=
  (m.update ev).2

/-- `n` typing-animation ticks in a row: the state after `n` consecutive
`typingMsg` events. -/
def typingTicks (m : ChatModel) (n : Nat) : ChatModel :=
  (fun s => stepState s Ev.typingTick)^[n] m

/-- `extensions.Command`: a command handle with an executable behaviour.
`Execute` returns the Go pair (result string, error). -/
structure Command where
  Name : List Char
  Description : List Char
  Execute : List (List Char) → List Char × Option (List Char)

/-- `extensions.Extension` as the registry stores it: name and
description (the `Commands()` listing lives in the manager's parallel
command index). -/
structure Extension where
  Name : List Char
  Description : List Char

/-- `extensions.Manager`: the extension registry.  The two Go maps are
association lists; `commands` is the parallel name→(command-name→Command)
index. -/
structure Manager where
  extensions : List (List Char × Extension)
  commands : List (List Char × List (List Char × Command))
  enabled : Bool

/-- `Manager.IsEnabled`. -/
def Manager.IsEnabled (m : Manager) : Bool := m.enabled

/-- `Manager.ExecuteCommand`: execute a command from an extension.
Indexing the command index with an unregistered extension name behaves
like Go's nil-map lookup (no entry found). -/
def Manager.ExecuteCommand (m : Manager) (extName cmdName : List Char)
    (args : List (List Char)) : List Char × Option (List Char) :=
  if !m.enabled then
    ([], some "extensions are disabled".data)
  else
    match m.extensions.lookup extName with
    | none => ([], some ("extension '".data ++ extName ++ "' not found".data))
    | some _ =>
      match ((m.commands.lookup extName).getD []).lookup cmdName with
      | none =>
        ([], some ("command '".data ++ cmdName ++ "' not found in extension '".data
          ++ extName ++ "'".data))
      | some cmd => cmd.Execute args

/-- `extensions.commandRead`: the built-in `read` command.  `readFile`
models `os.ReadFile` (file system access at the OS boundary): it maps a
path to the file's bytes or to a read error. -/
def commandRead (readFile : List Char → Except (List Char) (List Char))
    (args : List (List Char)) : List Char × Option (List Char) :=
  match args with
  | [] => ([], some "please provide a file path".data)
  | path :: _ =>
    match readFile path with
    | .error e => ([], some e)
    | .ok content =>
      if 1024 * 1024 < content.length then
        ([], some "file too large (>1MB)".data)
      else (content, none)

/-- The in-place replacement exception: event `ev` on state `m` is a
successful summary (system) response and index `i` is the trailing system
placeholder it overwrites. -/
def summaryReplaces (m : ChatModel) (ev : Ev) (i : Nat) : Prop :=
  match ev with
  | .llmResp _ none true _ =>
    i + 1 = m.messages.length ∧
    ∃ lastMsg, m.messages.getLast? = some lastMsg ∧ lastMsg.IsSystem = true
  | _ => False

/-- The counterexample state for the reveal-monotonicity claim: a single
complete system placeholder message whose visible text is shown in full,
while a summary request is pending. -/
def demoSummaryState : ChatModel :=
  { messages := [{ Content := ['x'], VisibleContent := ['x'], IsUser := false,
                   Time := 0, IsComplete := true, IsSystem := true }],
    waitingForResp := true, typingActive := false, typingSpeed := 4,
    thinkingDots := 1, width := 0, height := 0, ready := true,
    quitting := false, hasDB := false }

/-- A demonstration extension used by concrete witnesses. -/
def demoExt : Extension := { Name := "e".data, Description := [] }

/-- A demonstration command used by concrete witnesses: it concatenates
its arguments. -/
def demoCmd : Command :=
  { Name := "c".data, Description := [],
    Execute := fun args => (args.flatten, none) }

/-- A demonstration registry with one extension `e` owning one command
`c`. -/
def demoMgr (enabled : Bool) : Manager :=
  { extensions := [("e".data, demoExt)],
    commands := [("e".data, [("c".data, demoCmd)])],
    enabled := enabled }

/-- A demonstration session state used by concrete witnesses: one
incomplete assistant message of ten characters, typing animation active. -/
def demoBase : ChatModel :=
  { messages := [{ Content := "abcdefghij".data, VisibleContent := [],
                   IsUser := false, Time := 0, IsComplete := false,
                   IsSystem := false }],
    waitingForResp := false, typingActive := true, typingSpeed := 4,
    thinkingDots := 1, width := 0, height := 0, ready := true,
    quitting := false, hasDB := false }

/-! ## Invariants and helper lemmas -/

/-- The message invariant of the spec's data model: `VisibleContent` is a
prefix of `Content`, and a complete message shows its full content. -/
def MsgInv (msg : Message) : Prop :=
  msg.VisibleContent <+: msg.Content ∧
  (msg.IsComplete = true → msg.VisibleContent = msg.Content)

instance (msg : Message) : Decidable (MsgInv msg) := by
  unfold MsgInv; infer_instance

/-- A token of `splitArgs` is well formed when it is non-empty and free of
quote characters. -/
def goodToken (t : List Char) : Prop :=
  t ≠ [] ∧ ∀ c ∈ t, c ≠ '"' ∧ c ≠ '\x27'

lemma splitArgsAux_good (s : List Char) :
    ∀ (args : List (List Char)) (current : List Char) (q : Bool),
      (∀ t ∈ args, goodToken t) →
      (∀ c ∈ current, c ≠ '"' ∧ c ≠ '\x27') →
      ∀ t ∈ splitArgsAux s args current q, goodToken t := by
  induction s with
  | nil =>
    intro args current q hargs hcur t ht
    simp only [splitArgsAux] at ht
    by_cases h : current.length > 0
    · rw [if_pos h] at ht
      rcases List.mem_append.1 ht with h1 | h1
      · exact hargs t h1
      · rcases List.mem_singleton.1 h1 with rfl
        exact ⟨List.length_pos.mp h, hcur⟩
    · rw [if_neg h] at ht
      exact hargs t ht
  | cons c rest ih =>
    intro args current q hargs hcur t ht
    simp only [splitArgsAux] at ht
    by_cases hq : c = '"' ∨ c = '\x27'
    · rw [if_pos hq] at ht
      exact ih args current (!q) hargs hcur t ht
    · rw [if_neg hq] at ht
      by_cases hsp : c = ' ' ∧ q = false
      · rw [if_pos hsp] at ht
        by_cases hlen : current.length > 0
        · rw [if_pos hlen] at ht
          refine ih _ [] q ?_ (by simp) t ht
          intro t' ht'
          rcases List.mem_append.1 ht' with h1 | h1
          · exact hargs t' h1
          · rcases List.mem_singleton.1 h1 with rfl
            exact ⟨List.length_pos.mp hlen, hcur⟩
        · rw [if_neg hlen] at ht
          exact ih args current q hargs hcur t ht
      · rw [if_neg hsp] at ht
        refine ih args (current ++ [c]) q hargs ?_ t ht
        intro c' hc'
        rcases List.mem_append.1 hc' with h1 | h1
        · exact hcur c' h1
        · rcases List.mem_singleton.1 h1 with rfl
          exact ⟨fun h => hq (Or.inl h), fun h => hq (Or.inr h)⟩

/-- One typing tick while more than one step of characters remains: the
last message's visible prefix grows by exactly the typing speed and the
animation reschedules itself. -/
lemma typingTick_cont (m : ChatModel) (pre : List Message) (lastMsg : Message)
    (hm : m.messages = pre ++ [lastMsg]) (hact : m.typingActive = true)
    (hspeed : m.typingSpeed = 4) (huser : lastMsg.IsUser = false)
    (hcomp : lastMsg.IsComplete = false)
    (h4 : lastMsg.VisibleContent.length + 4 < lastMsg.Content.length) :
    m.update .typingTick =
      ({ m with messages := pre ++
          [{ lastMsg with VisibleContent :=
              lastMsg.Content.take (lastMsg.VisibleContent.length + 4) }] },
       [.typingAnim]) := by
  have hv : ¬ ((lastMsg.Content.length : Int) -
      (lastMsg.VisibleContent.length : Int) < 4) := by omega
  have hlen : (lastMsg.Content.take (lastMsg.VisibleContent.length + 4)).length <
      lastMsg.Content.length := by
    rw [List.length_take]; omega
  simp only [ChatModel.update, hm, hact, List.getLast?_concat, huser, hcomp,
    hspeed, List.dropLast_concat]
  simp only [Bool.not_false, Bool.and_self, if_true]
  rw [if_neg hv]
  norm_num
  simp only [show (4 : Int).toNat = 4 from rfl]
  rw [if_pos h4]

/-- One typing tick when at most one step of characters remains (but at
least one): the reveal completes, the message is marked complete and the
typing flag is cleared. -/
lemma typingTick_finish (m : ChatModel) (pre : List Message) (lastMsg : Message)
    (hm : m.messages = pre ++ [lastMsg]) (hact : m.typingActive = true)
    (hspeed : m.typingSpeed = 4) (huser : lastMsg.IsUser = false)
    (hcomp : lastMsg.IsComplete = false)
    (hlt : lastMsg.VisibleContent.length < lastMsg.Content.length)
    (hle : lastMsg.Content.length ≤ lastMsg.VisibleContent.length + 4) :
    m.update .typingTick =
      ({ m with
          messages := pre ++
            [{ lastMsg with VisibleContent := lastMsg.Content,
                            IsComplete := true }],
          typingActive := false }, []) := by
  simp only [ChatModel.update, hm, hact, List.getLast?_concat, huser, hcomp,
    hspeed, List.dropLast_concat]
  simp only [Bool.not_false, Bool.and_self, if_true]
  by_cases hc : ((lastMsg.Content.length : Int) -
      (lastMsg.VisibleContent.length : Int) < 4)
  · rw [if_pos hc,
      if_pos (show (0 : Int) < (lastMsg.Content.length : Int) -
        (lastMsg.VisibleContent.length : Int) by omega),
      show lastMsg.VisibleContent.length + ((lastMsg.Content.length : Int) -
        (lastMsg.VisibleContent.length : Int)).toNat = lastMsg.Content.length
        by omega,
      List.take_length, if_neg (lt_irrefl _)]
  · rw [if_neg hc, if_pos (show (0 : Int) < 4 by norm_num)]
    simp only [show (4 : Int).toNat = 4 from rfl]
    rw [show lastMsg.VisibleContent.length + 4 = lastMsg.Content.length by omega,
      List.take_length, if_neg (lt_irrefl _)]

/-- One typing tick when nothing remains to reveal: the message is marked
complete, the typing flag is cleared and nothing else changes. -/
lemma typingTick_done (m : ChatModel) (pre : List Message) (lastMsg : Message)
    (hm : m.messages = pre ++ [lastMsg]) (hact : m.typingActive = true)
    (hspeed : m.typingSpeed = 4) (huser : lastMsg.IsUser = false)
    (hcomp : lastMsg.IsComplete = false)
    (hge : lastMsg.Content.length ≤ lastMsg.VisibleContent.length) :
    m.update .typingTick =
      ({ m with
          messages := pre ++ [{ lastMsg with IsComplete := true }],
          typingActive := false }, []) := by
  simp only [ChatModel.update, hm, hact, List.getLast?_concat, huser, hcomp,
    hspeed, List.dropLast_concat]
  simp only [Bool.not_false, Bool.and_self, if_true]
  rw [if_pos (show (lastMsg.Content.length : Int) -
      (lastMsg.VisibleContent.length : Int) < 4 by omega),
    if_neg (show ¬ ((0 : Int) < (lastMsg.Content.length : Int) -
      (lastMsg.VisibleContent.length : Int)) by omega),
    if_pos hge]

/-- After `j` ticks (while the reveal is still running) the last message
shows exactly the first `4 * j` characters of its content. -/
lemma typingTicks_mid (m : ChatModel) (pre : List Message) (c : List Char)
    (t : Nat) (sys : Bool)
    (hm : m.messages = pre ++
      [{ Content := c, VisibleContent := [], IsUser := false, Time := t,
         IsComplete := false, IsSystem := sys }])
    (hact : m.typingActive = true) (hspeed : m.typingSpeed = 4) :
    ∀ j, 4 * j < c.length →
      (typingTicks m j).messages = pre ++
        [{ Content := c, VisibleContent := c.take (4 * j), IsUser := false,
           Time := t, IsComplete := false, IsSystem := sys }] ∧
      (typingTicks m j).typingActive = true ∧
      (typingTicks m j).typingSpeed = 4 := by
  intro j
  induction j with
  | zero =>
    intro _
    refine ⟨?_, ?_, ?_⟩ <;> simp [typingTicks, hm, hact, hspeed]
  | succ j ih =>
    intro hj
    have hj' : 4 * j < c.length := by omega
    obtain ⟨hmsg, hact', hspeed'⟩ := ih hj'
    have hb : (c.take (4 * j)).length + 4 < c.length := by
      rw [List.length_take]; omega
    have hstep := typingTick_cont (typingTicks m j) pre
      { Content := c, VisibleContent := c.take (4 * j), IsUser := false,
        Time := t, IsComplete := false, IsSystem := sys }
      hmsg hact' hspeed' rfl rfl hb
    have hiter : typingTicks m (j + 1) =
        stepState (typingTicks m j) Ev.typingTick :=
      Function.iterate_succ_apply' (fun s => stepState s Ev.typingTick) j m
    refine ⟨?_, ?_, ?_⟩
    · rw [hiter]
      show (ChatModel.update (typingTicks m j) Ev.typingTick).1.messages = _
      rw [hstep,
        show (c.take (4 * j)).length = 4 * j from by rw [List.length_take]; omega,
        show 4 * j + 4 = 4 * (j + 1) from by ring]
    · rw [hiter]
      show (ChatModel.update (typingTicks m j) Ev.typingTick).1.typingActive = true
      rw [hstep]
      exact hact'
    · rw [hiter]
      show (ChatModel.update (typingTicks m j) Ev.typingTick).1.typingSpeed = 4
      rw [hstep]
      exact hspeed'

/-- A message whose visible content is its full content satisfies the
message invariant, whatever its flags. -/
lemma msgInv_full (content : List Char) (u : Bool) (t : Nat) (c : Bool)
    (sys : Bool) :
    MsgInv { Content := content, VisibleContent := content, IsUser := u,
             Time := t, IsComplete := c, IsSystem := sys } :=
  ⟨List.prefix_refl content, fun _ => rfl⟩

/-- A freshly created incomplete message with empty visible content
satisfies the message invariant. -/
lemma msgInv_empty (content : List Char) (u : Bool) (t : Nat) (sys : Bool) :
    MsgInv { Content := content, VisibleContent := [], IsUser := u,
             Time := t, IsComplete := false, IsSystem := sys } :=
  ⟨List.nil_prefix, fun h => absurd h (by simp)⟩

/-- The two step-level conclusions of the reveal invariant when a step
leaves the log unchanged. -/
lemma C1core_eq {m : ChatModel} {ev : Ev}
    (h : (stepState m ev).messages = m.messages)
    (hinv : ∀ msg ∈ m.messages, MsgInv msg) :
    (∀ msg ∈ (stepState m ev).messages, MsgInv msg) ∧
    (∀ i, i < m.messages.length → i < (stepState m ev).messages.length →
      ¬ summaryReplaces m ev i →
      (m.messages.getD i default).VisibleContent.length ≤
        ((stepState m ev).messages.getD i default).VisibleContent.length) := by
  constructor
  · rw [h]; exact hinv
  · intro i h1 h2 h3
    rw [h]

/-- The two step-level conclusions of the reveal invariant when a step
appends one invariant-respecting message. -/
lemma C1core_append {m : ChatModel} {ev : Ev} {newMsg : Message}
    (h : (stepState m ev).messages = m.messages ++ [newMsg])
    (hnew : MsgInv newMsg) (hinv : ∀ msg ∈ m.messages, MsgInv msg) :
    (∀ msg ∈ (stepState m ev).messages, MsgInv msg) ∧
    (∀ i, i < m.messages.length → i < (stepState m ev).messages.length →
      ¬ summaryReplaces m ev i →
      (m.messages.getD i default).VisibleContent.length ≤
        ((stepState m ev).messages.getD i default).VisibleContent.length) := by
  constructor
  · rw [h]
    intro msg hmsg
    rcases List.mem_append.1 hmsg with h1 | h1
    · exact hinv msg h1
    · rcases List.mem_singleton.1 h1 with rfl
      exact hnew
  · intro i h1 h2 h3
    rw [h, List.getD_append _ _ _ _ h1]

/-- The two step-level conclusions when a step rewrites the last message
without shrinking its visible prefix. -/
lemma C1core_replaceLast_mono {m : ChatModel} {ev : Ev} {pre : List Message}
    {lastMsg newLast : Message}
    (hm : m.messages = pre ++ [lastMsg])
    (h : (stepState m ev).messages = pre ++ [newLast])
    (hnew : MsgInv newLast)
    (hmono : lastMsg.VisibleContent.length ≤ newLast.VisibleContent.length)
    (hinv : ∀ msg ∈ m.messages, MsgInv msg) :
    (∀ msg ∈ (stepState m ev).messages, MsgInv msg) ∧
    (∀ i, i < m.messages.length → i < (stepState m ev).messages.length →
      ¬ summaryReplaces m ev i →
      (m.messages.getD i default).VisibleContent.length ≤
        ((stepState m ev).messages.getD i default).VisibleContent.length) := by
  constructor
  · rw [h]
    intro msg hmsg
    rcases List.mem_append.1 hmsg with h1 | h1
    · exact hinv msg (by rw [hm]; exact List.mem_append.2 (Or.inl h1))
    · rcases List.mem_singleton.1 h1 with rfl
      exact hnew
  · intro i h1 h2 _
    rw [hm] at h1 ⊢
    rw [h]
    rcases lt_or_ge i pre.length with hi | hi
    · rw [List.getD_append _ _ _ _ hi, List.getD_append _ _ _ _ hi]
    · have hlen : (pre ++ [lastMsg]).length = pre.length + 1 := by simp
      have hieq : i = pre.length := by omega
      subst hieq
      rw [List.getD_eq_getElem _ _ (by simp), List.getD_eq_getElem _ _ (by simp)]
      rw [List.getElem_concat_length pre lastMsg _ rfl (by simp),
        List.getElem_concat_length pre newLast _ rfl (by simp)]
      exact hmono

/-- The two step-level conclusions when a step replaces the last message
arbitrarily but the replacement is exactly the summary exception. -/
lemma C1core_replaceLast_exc {m : ChatModel} {ev : Ev} {pre : List Message}
    {lastMsg newLast : Message}
    (hm : m.messages = pre ++ [lastMsg])
    (h : (stepState m ev).messages = pre ++ [newLast])
    (hnew : MsgInv newLast)
    (hrep : ∀ i, i + 1 = m.messages.length → summaryReplaces m ev i)
    (hinv : ∀ msg ∈ m.messages, MsgInv msg) :
    (∀ msg ∈ (stepState m ev).messages, MsgInv msg) ∧
    (∀ i, i < m.messages.length → i < (stepState m ev).messages.length →
      ¬ summaryReplaces m ev i →
      (m.messages.getD i default).VisibleContent.length ≤
        ((stepState m ev).messages.getD i default).VisibleContent.length) := by
  constructor
  · rw [h]
    intro msg hmsg
    rcases List.mem_append.1 hmsg with h1 | h1
    · exact hinv msg (by rw [hm]; exact List.mem_append.2 (Or.inl h1))
    · rcases List.mem_singleton.1 h1 with rfl
      exact hnew
  · intro i h1 h2 hnot
    have hne : i + 1 ≠ m.messages.length := fun hc => hnot (hrep i hc)
    rw [hm] at h1 hne ⊢
    rw [h]
    have hlen : (pre ++ [lastMsg]).length = pre.length + 1 := by simp
    have hi : i < pre.length := by omega
    rw [List.getD_append _ _ _ _ hi, List.getD_append _ _ _ _ hi]

/-- An Enter key event either leaves the log unchanged or appends one
invariant-respecting message. -/
lemma keyEnter_shape (m : ChatModel) (input : List Char) (now : Nat) :
    (stepState m (.keyEnter input now)).messages = m.messages ∨
    ∃ newMsg, MsgInv newMsg ∧
      (stepState m (.keyEnter input now)).messages = m.messages ++ [newMsg] := by
  simp only [stepState, ChatModel.update]
  repeat' split
  all_goals
    first
      | exact Or.inl rfl
      | exact Or.inr ⟨_, msgInv_full _ _ _ _ _, rfl⟩

/-- A typing tick on an active reveal either leaves the log unchanged or
rewrites the last message, preserving the invariant and never shrinking
the visible prefix. -/
lemma typingTick_generic (m : ChatModel) (pre : List Message)
    (lastMsg : Message) (hm : m.messages = pre ++ [lastMsg])
    (hact : m.typingActive = true) (huser : lastMsg.IsUser = false)
    (hcomp : lastMsg.IsComplete = false)
    (hpre : lastMsg.VisibleContent <+: lastMsg.Content) :
    (stepState m .typingTick).messages = m.messages ∨
    ∃ newLast : Message,
      (stepState m .typingTick).messages = pre ++ [newLast] ∧
      MsgInv newLast ∧
      lastMsg.VisibleContent.length ≤ newLast.VisibleContent.length := by
  have hvn : lastMsg.VisibleContent.length ≤ lastMsg.Content.length :=
    hpre.length_le
  simp only [stepState, ChatModel.update, hm, List.getLast?_concat, huser,
    hcomp, List.dropLast_concat, hact]
  simp only [Bool.not_false, Bool.and_self, eq_self_iff_true, if_true]
  by_cases hpos : (0 : Int) <
      (if (lastMsg.Content.length : Int) - (lastMsg.VisibleContent.length : Int) <
          m.typingSpeed
        then (lastMsg.Content.length : Int) - (lastMsg.VisibleContent.length : Int)
        else m.typingSpeed)
  · rw [if_pos hpos]
    by_cases hlt : (lastMsg.Content.take (lastMsg.VisibleContent.length +
        ((if (lastMsg.Content.length : Int) -
            (lastMsg.VisibleContent.length : Int) < m.typingSpeed
          then (lastMsg.Content.length : Int) -
            (lastMsg.VisibleContent.length : Int)
          else m.typingSpeed)).toNat)).length < lastMsg.Content.length
    · rw [if_pos hlt]
      refine Or.inr ⟨_, rfl, ⟨List.take_prefix _ _,
        fun h => absurd h (by simp)⟩, ?_⟩
      simp only [List.length_take]
      omega
    · rw [if_neg hlt]
      rw [List.length_take] at hlt
      refine Or.inr ⟨_, rfl, ⟨List.take_prefix _ _, fun _ => ?_⟩, ?_⟩
      · exact List.take_of_length_le (by omega)
      · simp only [List.length_take]
        omega
  · rw [if_neg hpos]
    by_cases hge : lastMsg.Content.length ≤ lastMsg.VisibleContent.length
    · rw [if_pos hge]
      refine Or.inr ⟨_, rfl, ⟨hpre, fun _ => ?_⟩, le_rfl⟩
      exact hpre.eq_of_length (by omega)
    · rw [if_neg hge]
      exact Or.inl hm

/-! ## Claims -/

/-- C4: the quote-aware tokenizer on the spec's three examples:
`splitArgs "a \"b c\" d" = ["a", "b c", "d"]`, `splitArgs "" = []`, and the
unterminated-quote input `splitArgs "a \"b" = ["a", "b"]` (the trailing
partial token is still flushed, not an error). -/
theorem C4_splitArgs_examples :
    splitArgs "a \"b c\" d".data = ["a".data, "b c".data, "d".data] ∧
    splitArgs "".data = [] ∧
    splitArgs "a \"b".data = ["a".data, "b".data] := by
  refine ⟨?_, ?_, ?_⟩ <;> decide

/-- C10: every token returned by `splitArgs` is non-empty (runs of spaces
outside quotes never yield an empty argument), and no token contains a
single-quote or double-quote character — quote characters only toggle the
quoting mode and are dropped from the output. -/
theorem C10_splitArgs_tokens_good (s : List Char) :
    ∀ t ∈ splitArgs s, t ≠ [] ∧ ∀ c ∈ t, c ≠ '"' ∧ c ≠ '\x27' := by
  intro t ht
  exact splitArgsAux_good s [] [] false (by simp) (by simp) t ht

/-- C2: `Manager.ExecuteCommand` fails with the extensions-disabled error
whenever the registry is disabled, regardless of whether the names exist;
on an enabled registry it fails with the extension-not-found error when no
extension of that name is registered, with the command-not-found error when
the extension exists but has no such command, and otherwise returns exactly
the command's `Execute` result on the given arguments. -/
theorem C2_executeCommand_cases (m : Manager) (extName cmdName : List Char)
    (args : List (List Char)) :
    (m.enabled = false →
      m.ExecuteCommand extName cmdName args =
        ([], some "extensions are disabled".data)) ∧
    (m.enabled = true → m.extensions.lookup extName = none →
      m.ExecuteCommand extName cmdName args =
        ([], some ("extension '".data ++ extName ++ "' not found".data))) ∧
    (∀ ext, m.enabled = true → m.extensions.lookup extName = some ext →
      ((m.commands.lookup extName).getD []).lookup cmdName = none →
      m.ExecuteCommand extName cmdName args =
        ([], some ("command '".data ++ cmdName ++ "' not found in extension '".data
          ++ extName ++ "'".data))) ∧
    (∀ ext cmd, m.enabled = true → m.extensions.lookup extName = some ext →
      ((m.commands.lookup extName).getD []).lookup cmdName = some cmd →
      m.ExecuteCommand extName cmdName args = cmd.Execute args) := by
  refine ⟨fun hd => ?_, fun he hn => ?_, fun ext he hs hn => ?_,
    fun ext cmd he hs hc => ?_⟩
  · simp [Manager.ExecuteCommand, hd]
  · simp [Manager.ExecuteCommand, he, hn]
  · simp [Manager.ExecuteCommand, he, hs, hn]
  · simp [Manager.ExecuteCommand, he, hs, hc]

/-- Witness for C2: the demo registry with one extension `e` owning one
command `c`, exercised on all four cases (disabled, unknown extension,
unknown command, successful dispatch). -/
theorem C2_witness :
    ((demoMgr false).ExecuteCommand "e".data "c".data [['a']] =
      ([], some "extensions are disabled".data)) ∧
    ((demoMgr true).ExecuteCommand "z".data "c".data [['a']] =
      ([], some ("extension '".data ++ "z".data ++ "' not found".data))) ∧
    ((demoMgr true).ExecuteCommand "e".data "z".data [['a']] =
      ([], some ("command '".data ++ "z".data ++ "' not found in extension '".data
        ++ "e".data ++ "'".data))) ∧
    ((demoMgr true).ExecuteCommand "e".data "c".data [['a'], ['b']] =
      (['a', 'b'], none)) :=
  ⟨(C2_executeCommand_cases (demoMgr false) "e".data "c".data [['a']]).1 rfl,
   (C2_executeCommand_cases (demoMgr true) "z".data "c".data [['a']]).2.1 rfl rfl,
   (C2_executeCommand_cases (demoMgr true) "e".data "z".data [['a']]).2.2.1
     demoExt rfl rfl rfl,
   ((C2_executeCommand_cases (demoMgr true) "e".data "c".data
       [['a'], ['b']]).2.2.2 demoExt demoCmd rfl rfl rfl).trans rfl⟩

/-- C7: the built-in `read` command returns exactly the file's content
with a nil error when the file is at most 1 MiB, and fails with the
size-limit error and an empty result (no partial content) when the file is
strictly larger than 1 MiB. -/
theorem C7_commandRead_size_limit
    (readFile : List Char → Except (List Char) (List Char))
    (path content : List Char) (h : readFile path = .ok content) :
    (content.length ≤ 1024 * 1024 →
      commandRead readFile [path] = (content, none)) ∧
    (1024 * 1024 < content.length →
      commandRead readFile [path] = ([], some "file too large (>1MB)".data)) := by
  constructor
  · intro hle
    simp [commandRead, h, Nat.not_lt.mpr hle]
  · intro hgt
    simp [commandRead, h, hgt]

/-- Witness for C7: a one-byte file is returned verbatim, and a
1 MiB + 1 byte file is rejected with the size-limit error. -/
theorem C7_witness :
    (commandRead (fun _ => .ok ['a']) [['p']] = (['a'], none)) ∧
    (commandRead (fun _ => .ok (List.replicate (1024 * 1024 + 1) 'a')) [['p']] =
      ([], some "file too large (>1MB)".data)) :=
  ⟨(C7_commandRead_size_limit (fun _ => .ok ['a']) ['p'] ['a'] rfl).1 (by decide),
   (C7_commandRead_size_limit (fun _ => .ok (List.replicate (1024 * 1024 + 1) 'a'))
      ['p'] (List.replicate (1024 * 1024 + 1) 'a') rfl).2
     (by rw [List.length_replicate]; omega)⟩

/-- Witness for C10 at the concrete input `a 'b c`. -/
theorem C10_witness :
    "b c".data ≠ [] ∧ ∀ c ∈ "b c".data, c ≠ '"' ∧ c ≠ '\x27' :=
  C10_splitArgs_tokens_good "a 'b c".data "b c".data (by decide)

/-- C3: classification of submitted input on a fresh idle session:
`/summarize` triggers the summary action and appends only the placeholder
system message (never the literal command text as a user message);
`/help` triggers the render-help action; `/ext` (extension name without a
command word) appends the missing-command system message naming the
extension; `/ext cmd a b` dispatches extension `ext`, command `cmd`, args
`["a", "b"]`; and `/` alone is ordinary chat content (a complete user
message plus an LLM request) because command treatment requires length
greater than 1. -/
theorem C3_command_classification :
    (ChatModel.update (NewChatModel false [] "gpt".data 0)
        (.keyEnter "/summarize".data 1) =
      ({ NewChatModel false [] "gpt".data 0 with
          waitingForResp := true,
          messages := (NewChatModel false [] "gpt".data 0).messages ++
            [{ Content := generatingText, VisibleContent := generatingText,
               IsUser := false, Time := 1, IsComplete := true,
               IsSystem := true }] },
       [.getSummary])) ∧
    (ChatModel.update (NewChatModel false [] "gpt".data 0)
        (.keyEnter "/help".data 1) =
      (NewChatModel false [] "gpt".data 0, [.handleHelp])) ∧
    (ChatModel.update (NewChatModel false [] "gpt".data 0)
        (.keyEnter "/ext".data 1) =
      ({ NewChatModel false [] "gpt".data 0 with
          messages := (NewChatModel false [] "gpt".data 0).messages ++
            [{ Content := missingCmdText "ext".data,
               VisibleContent := missingCmdText "ext".data,
               IsUser := false, Time := 1, IsComplete := true,
               IsSystem := true }] },
       [])) ∧
    (ChatModel.update (NewChatModel false [] "gpt".data 0)
        (.keyEnter "/ext cmd a b".data 1) =
      (NewChatModel false [] "gpt".data 0,
       [.execExtension "ext".data "cmd".data ["a".data, "b".data]])) ∧
    (ChatModel.update (NewChatModel false [] "gpt".data 0)
        (.keyEnter "/".data 1) =
      ({ NewChatModel false [] "gpt".data 0 with
          waitingForResp := true,
          messages := (NewChatModel false [] "gpt".data 0).messages ++
            [{ Content := "/".data, VisibleContent := "/".data,
               IsUser := true, Time := 1, IsComplete := true,
               IsSystem := false }] },
       [.getResponse "/".data])) := by
  refine ⟨?_, ?_, ?_, ?_, ?_⟩ <;> decide

/-- C6: while a request is pending (`waitingForResp` true), an Enter key
event with any input leaves the message log unchanged, appends no user
message, issues no outbound request or persistence call, and leaves the
pending flag true. -/
theorem C6_pending_gates_submission (m : ChatModel)
    (h : m.waitingForResp = true) (input : List Char) (now : Nat) :
    (stepState m (.keyEnter input now)).messages = m.messages ∧
    (stepState m (.keyEnter input now)).waitingForResp = true ∧
    stepEffs m (.keyEnter input now) = [] := by
  refine ⟨?_, ?_, ?_⟩ <;> simp [stepState, stepEffs, ChatModel.update, h]

/-- Witness for C6 at a concrete pending state and input. -/
theorem C6_witness :
    (stepState { demoBase with waitingForResp := true }
        (.keyEnter "hello".data 3)).messages =
      ({ demoBase with waitingForResp := true } : ChatModel).messages ∧
    (stepState { demoBase with waitingForResp := true }
        (.keyEnter "hello".data 3)).waitingForResp = true ∧
    stepEffs { demoBase with waitingForResp := true }
        (.keyEnter "hello".data 3) = [] :=
  C6_pending_gates_submission { demoBase with waitingForResp := true } rfl
    "hello".data 3

/-- C9: an LLM response event carrying an error clears the pending flag,
appends exactly one already-complete visible error message (its
`VisibleContent` equals its `Content` from the start, the typing flag is
untouched so no reveal animation runs), calls no persistence `AddMessage`,
and issues no effect at all — in particular the session is not
terminated. -/
theorem C9_llm_error_recovery (m : ChatModel) (resp e : List Char)
    (isSys : Bool) (now : Nat) :
    (stepState m (.llmResp resp (some e) isSys now)).waitingForResp = false ∧
    (stepState m (.llmResp resp (some e) isSys now)).messages =
      m.messages ++
        [{ Content := "Error: ".data ++ e,
           VisibleContent := "Error: ".data ++ e, IsUser := false,
           Time := now, IsComplete := true, IsSystem := false }] ∧
    (stepState m (.llmResp resp (some e) isSys now)).typingActive =
      m.typingActive ∧
    stepEffs m (.llmResp resp (some e) isSys now) = [] :=
  ⟨rfl, rfl, rfl, rfl⟩

/-- C8: a successful summary (system) response event clears the pending
flag; if the log's last message is a system message it is replaced in
place by a new incomplete system message whose `Content` is the summary
and whose `VisibleContent` is empty, otherwise such a message is appended
(all earlier messages unchanged either way); and persistence
`AddMessage` is never called — the only effect is the typing-animation
reschedule. -/
theorem C8_summary_response (m : ChatModel) (resp : List Char) (now : Nat) :
    (stepState m (.llmResp resp none true now)).waitingForResp = false ∧
    (∀ lastMsg, m.messages.getLast? = some lastMsg → lastMsg.IsSystem = true →
      (stepState m (.llmResp resp none true now)).messages =
        m.messages.dropLast ++
          [{ Content := resp, VisibleContent := [], IsUser := false,
             Time := now, IsComplete := false, IsSystem := true }]) ∧
    (∀ lastMsg, m.messages.getLast? = some lastMsg → lastMsg.IsSystem = false →
      (stepState m (.llmResp resp none true now)).messages =
        m.messages ++
          [{ Content := resp, VisibleContent := [], IsUser := false,
             Time := now, IsComplete := false, IsSystem := true }]) ∧
    (m.messages.getLast? = none →
      (stepState m (.llmResp resp none true now)).messages =
        m.messages ++
          [{ Content := resp, VisibleContent := [], IsUser := false,
             Time := now, IsComplete := false, IsSystem := true }]) ∧
    (∀ role content,
      Eff.dbAddMessage role content ∉ stepEffs m (.llmResp resp none true now)) ∧
    stepEffs m (.llmResp resp none true now) = [Eff.typingAnim] := by
  refine ⟨rfl, fun lastMsg hl hs => ?_, fun lastMsg hl hs => ?_, fun hn => ?_,
    fun role content => ?_, rfl⟩
  · simp [stepState, ChatModel.update, hl, hs]
  · simp [stepState, ChatModel.update, hl, hs]
  · simp [stepState, ChatModel.update, hn]
  · simp [stepEffs, ChatModel.update]

/-- Witness for C8: with a trailing complete system placeholder the
summary replaces it in place; with an empty log it is appended. -/
theorem C8_witness :
    (stepState
        { demoBase with
            messages := [{ Content := generatingText,
                           VisibleContent := generatingText, IsUser := false,
                           Time := 0, IsComplete := true, IsSystem := true }],
            waitingForResp := true, typingActive := false }
        (.llmResp "sum".data none true 2)).messages =
      [{ Content := generatingText, VisibleContent := generatingText,
         IsUser := false, Time := 0, IsComplete := true,
         IsSystem := true }].dropLast ++
        [{ Content := "sum".data, VisibleContent := [], IsUser := false,
           Time := 2, IsComplete := false, IsSystem := true }] ∧
    (stepState
        { demoBase with messages := [], waitingForResp := true,
                        typingActive := false }
        (.llmResp "sum".data none true 2)).messages =
      ([] : List Message) ++
        [{ Content := "sum".data, VisibleContent := [], IsUser := false,
           Time := 2, IsComplete := false, IsSystem := true }] :=
  ⟨(C8_summary_response
      { demoBase with
          messages := [{ Content := generatingText,
                         VisibleContent := generatingText, IsUser := false,
                         Time := 0, IsComplete := true, IsSystem := true }],
          waitingForResp := true, typingActive := false }
      "sum".data 2).2.1
    { Content := generatingText, VisibleContent := generatingText,
      IsUser := false, Time := 0, IsComplete := true, IsSystem := true }
    rfl rfl,
   (C8_summary_response
      { demoBase with messages := [], waitingForResp := true,
                      typingActive := false }
      "sum".data 2).2.2.2.1 rfl⟩

/-- C5: on each typing tick the last incomplete non-user message's
`VisibleContent` grows by exactly `min(len(Content) - len(VisibleContent),
4)` characters (4 is the fixed typing speed), so by at most the fixed step
per tick; and from an empty `VisibleContent` the message reaches full
length in exactly `ceil(len(Content)/4)` ticks: after that many ticks the
visible prefix equals the content, and after any smaller number of ticks
it does not. -/
theorem C5_typing_reveal :
    (∀ (m : ChatModel) (pre : List Message) (lastMsg : Message),
      m.messages = pre ++ [lastMsg] → m.typingActive = true →
      m.typingSpeed = 4 → lastMsg.IsUser = false → lastMsg.IsComplete = false →
      lastMsg.VisibleContent.length ≤ lastMsg.Content.length →
      ∃ newLast : Message,
        (stepState m .typingTick).messages = pre ++ [newLast] ∧
        newLast.Content = lastMsg.Content ∧
        newLast.VisibleContent.length = lastMsg.VisibleContent.length +
          min (lastMsg.Content.length - lastMsg.VisibleContent.length) 4) ∧
    (∀ (m : ChatModel) (pre : List Message) (c : List Char) (t : Nat)
        (sys : Bool),
      m.messages = pre ++
        [{ Content := c, VisibleContent := [], IsUser := false, Time := t,
           IsComplete := false, IsSystem := sys }] →
      m.typingActive = true → m.typingSpeed = 4 →
      (∃ mFinal : Message,
        (typingTicks m ((c.length + 3) / 4)).messages = pre ++ [mFinal] ∧
        mFinal.Content = c ∧ mFinal.VisibleContent = c) ∧
      (∀ j < (c.length + 3) / 4, ∃ mj : Message,
        (typingTicks m j).messages = pre ++ [mj] ∧ mj.VisibleContent ≠ c)) := by
  constructor
  · intro m pre lastMsg hm hact hspeed huser hcomp hle
    rcases lt_or_ge lastMsg.VisibleContent.length lastMsg.Content.length with
      hlt | hge
    · rcases le_or_lt lastMsg.Content.length (lastMsg.VisibleContent.length + 4)
        with hle4 | hgt4
      · refine ⟨{ lastMsg with VisibleContent := lastMsg.Content,
                               IsComplete := true }, ?_, rfl, ?_⟩
        · show (ChatModel.update m .typingTick).1.messages = _
          rw [typingTick_finish m pre lastMsg hm hact hspeed huser hcomp hlt hle4]
        · show lastMsg.Content.length = _
          omega
      · refine ⟨{ lastMsg with VisibleContent :=
            lastMsg.Content.take (lastMsg.VisibleContent.length + 4) }, ?_, rfl, ?_⟩
        · show (ChatModel.update m .typingTick).1.messages = _
          rw [typingTick_cont m pre lastMsg hm hact hspeed huser hcomp hgt4]
        · show (lastMsg.Content.take (lastMsg.VisibleContent.length + 4)).length = _
          rw [List.length_take]; omega
    · refine ⟨{ lastMsg with IsComplete := true }, ?_, rfl, ?_⟩
      · show (ChatModel.update m .typingTick).1.messages = _
        rw [typingTick_done m pre lastMsg hm hact hspeed huser hcomp hge]
      · show lastMsg.VisibleContent.length = _
        omega
  · intro m pre c t sys hm hact hspeed
    by_cases hn : c.length = 0
    · have hc : c = [] := List.eq_nil_of_length_eq_zero hn
      subst hc
      constructor
      · refine ⟨{ Content := [], VisibleContent := [], IsUser := false,
                  Time := t, IsComplete := false, IsSystem := sys }, ?_, rfl, rfl⟩
        simpa [typingTicks] using hm
      · intro j hj
        norm_num at hj
    · have hpos : 0 < c.length := Nat.pos_of_ne_zero hn
      set k := (c.length + 3) / 4 with hk
      have hk1 : 1 ≤ k := by omega
      have hlast : 4 * (k - 1) < c.length := by omega
      obtain ⟨hmsg, hact', hspeed'⟩ :=
        typingTicks_mid m pre c t sys hm hact hspeed (k - 1) hlast
      constructor
      · have hfin := typingTick_finish (typingTicks m (k - 1)) pre
          { Content := c, VisibleContent := c.take (4 * (k - 1)),
            IsUser := false, Time := t, IsComplete := false, IsSystem := sys }
          hmsg hact' hspeed' rfl rfl
          (show (c.take (4 * (k - 1))).length < c.length from by
            rw [List.length_take]; omega)
          (show c.length ≤ (c.take (4 * (k - 1))).length + 4 from by
            rw [List.length_take]; omega)
        have hiter : typingTicks m k =
            stepState (typingTicks m (k - 1)) Ev.typingTick := by
          conv_lhs => rw [show k = (k - 1) + 1 from by omega]
          exact Function.iterate_succ_apply' _ _ _
        refine ⟨{ Content := c, VisibleContent := c, IsUser := false,
                  Time := t, IsComplete := true, IsSystem := sys }, ?_, rfl, rfl⟩
        rw [hiter]
        show (ChatModel.update (typingTicks m (k - 1)) Ev.typingTick).1.messages = _
        rw [hfin]
      · intro j hj
        have hjlt : 4 * j < c.length := by omega
        obtain ⟨hmsgj, -, -⟩ := typingTicks_mid m pre c t sys hm hact hspeed j hjlt
        refine ⟨{ Content := c, VisibleContent := c.take (4 * j),
                  IsUser := false, Time := t, IsComplete := false,
                  IsSystem := sys },
          hmsgj, ?_⟩
        intro hvc
        have hlen : (c.take (4 * j)).length = c.length :=
          congrArg List.length hvc
        rw [List.length_take] at hlen
        omega

/-- Witness for C5 at the demo state (content of ten characters, so
`ceil(10/4) = 3` ticks). -/
theorem C5_witness :
    (∃ newLast : Message,
      (stepState demoBase .typingTick).messages = [] ++ [newLast] ∧
      newLast.Content = "abcdefghij".data ∧
      newLast.VisibleContent.length =
        ([] : List Char).length +
          min ("abcdefghij".data.length - ([] : List Char).length) 4) ∧
    ((∃ mFinal : Message,
        (typingTicks demoBase (("abcdefghij".data.length + 3) / 4)).messages =
          [] ++ [mFinal] ∧
        mFinal.Content = "abcdefghij".data ∧
        mFinal.VisibleContent = "abcdefghij".data) ∧
     (∀ j < ("abcdefghij".data.length + 3) / 4, ∃ mj : Message,
        (typingTicks demoBase j).messages = [] ++ [mj] ∧
        mj.VisibleContent ≠ "abcdefghij".data)) :=
  ⟨C5_typing_reveal.1 demoBase []
    { Content := "abcdefghij".data, VisibleContent := [], IsUser := false,
      Time := 0, IsComplete := false, IsSystem := false }
    rfl rfl rfl rfl rfl (Nat.zero_le _),
   C5_typing_reveal.2 demoBase [] "abcdefghij".data 0 false rfl rfl rfl⟩

/-- Counterexample to C1 as stated: when a summary response arrives while
the last message is the complete system placeholder, `Update` replaces
that message in place, so the `VisibleContent` length at that log index
strictly decreases across the step. -/
theorem C1_counterexample :
    ((stepState demoSummaryState (.llmResp ['s'] none true 1)).messages.getD 0
        default).VisibleContent.length <
      ((demoSummaryState.messages.getD 0 default)).VisibleContent.length := by
  decide

/-- C1 (amended): in any state whose messages satisfy the invariant, after
any event every message still has `VisibleContent` a prefix of `Content`
(so its length is at most the content length) and any complete message
shows its full content; the `VisibleContent` length at any log index never
decreases across a step EXCEPT at the trailing system placeholder
overwritten in place by an arriving summary response; and every fresh
session's initial log satisfies the invariant. -/
theorem C1_amended_reveal_invariants (m : ChatModel) (ev : Ev)
    (hinv : ∀ msg ∈ m.messages, MsgInv msg) :
    (∀ msg ∈ (stepState m ev).messages,
      MsgInv msg ∧ msg.VisibleContent.length ≤ msg.Content.length ∧
      (msg.IsComplete = true → msg.VisibleContent = msg.Content)) ∧
    (∀ i, i < m.messages.length → i < (stepState m ev).messages.length →
      ¬ summaryReplaces m ev i →
      (m.messages.getD i default).VisibleContent.length ≤
        ((stepState m ev).messages.getD i default).VisibleContent.length) ∧
    (∀ (hasDB : Bool) (llmName : List Char) (now : Nat),
      ∀ msg ∈ (NewChatModel hasDB [] llmName now).messages, MsgInv msg) := by
  have base : (∀ msg ∈ (stepState m ev).messages, MsgInv msg) ∧
      (∀ i, i < m.messages.length → i < (stepState m ev).messages.length →
        ¬ summaryReplaces m ev i →
        (m.messages.getD i default).VisibleContent.length ≤
          ((stepState m ev).messages.getD i default).VisibleContent.length) := by
    cases ev with
    | keyCtrlC => exact C1core_eq rfl hinv
    | keyEnterAlt => exact C1core_eq rfl hinv
    | keyEnter input now =>
      rcases keyEnter_shape m input now with h | ⟨newMsg, hnew, h⟩
      · exact C1core_eq h hinv
      · exact C1core_append h hnew hinv
    | windowSize w h => exact C1core_eq rfl hinv
    | llmResp resp err isSys now =>
      rcases err with _ | e
      · cases isSys with
        | false => exact C1core_append rfl (msgInv_empty _ _ _ _) hinv
        | true =>
          rcases hL : m.messages.getLast? with _ | lastMsg
          · have hshape : (stepState m (.llmResp resp none true now)).messages =
                m.messages ++
                  [{ Content := resp, VisibleContent := [], IsUser := false,
                     Time := now, IsComplete := false, IsSystem := true }] := by
              simp [stepState, ChatModel.update, hL]
            exact C1core_append hshape (msgInv_empty _ _ _ _) hinv
          · obtain ⟨pre, hpre⟩ := List.getLast?_eq_some_iff.mp hL
            cases hS : lastMsg.IsSystem with
            | true =>
              have hshape : (stepState m (.llmResp resp none true now)).messages =
                  pre ++
                    [{ Content := resp, VisibleContent := [], IsUser := false,
                       Time := now, IsComplete := false, IsSystem := true }] := by
                simp [stepState, ChatModel.update, hL, hS, hpre,
                  List.dropLast_concat]
              refine C1core_replaceLast_exc hpre hshape (msgInv_empty _ _ _ _)
                ?_ hinv
              intro i hi
              exact ⟨hi, lastMsg, hL, hS⟩
            | false =>
              have hshape : (stepState m (.llmResp resp none true now)).messages =
                  m.messages ++
                    [{ Content := resp, VisibleContent := [], IsUser := false,
                       Time := now, IsComplete := false, IsSystem := true }] := by
                simp [stepState, ChatModel.update, hL, hS]
              exact C1core_append hshape (msgInv_empty _ _ _ _) hinv
      · exact C1core_append rfl (msgInv_full _ _ _ _ _) hinv
    | extResp extName cmdName resp err now =>
      rcases err with _ | e
      · exact C1core_append rfl (msgInv_empty _ _ _ _) hinv
      · exact C1core_append rfl (msgInv_full _ _ _ _ _) hinv
    | spinnerTick => exact C1core_eq rfl hinv
    | thinkingTick => exact C1core_eq rfl hinv
    | typingTick =>
      cases hact : m.typingActive with
      | false =>
        refine C1core_eq ?_ hinv
        simp [stepState, ChatModel.update, hact]
      | true =>
        rcases hL : m.messages.getLast? with _ | lastMsg
        · refine C1core_eq ?_ hinv
          simp [stepState, ChatModel.update, hact, hL]
        · obtain ⟨pre, hpre⟩ := List.getLast?_eq_some_iff.mp hL
          cases huser : lastMsg.IsUser with
          | true =>
            refine C1core_eq ?_ hinv
            simp [stepState, ChatModel.update, hact, hL, huser]
          | false =>
            cases hcomp : lastMsg.IsComplete with
            | true =>
              refine C1core_eq ?_ hinv
              simp [stepState, ChatModel.update, hact, hL, huser, hcomp]
            | false =>
              have hmem : lastMsg ∈ m.messages := by
                rw [hpre]
                exact List.mem_append.2 (Or.inr (List.mem_singleton.2 rfl))
              rcases typingTick_generic m pre lastMsg hpre hact huser hcomp
                  (hinv lastMsg hmem).1 with h | ⟨newLast, h, hnew, hmono⟩
              · exact C1core_eq h hinv
              · exact C1core_replaceLast_mono hpre h hnew hmono hinv
  refine ⟨fun msg hmsg => ⟨base.1 msg hmsg, (base.1 msg hmsg).1.length_le,
    (base.1 msg hmsg).2⟩, base.2, ?_⟩
  intro hasDB llmName now msg hmsg
  simp only [NewChatModel, gt_iff_lt, List.length_nil, Nat.lt_irrefl,
    if_false] at hmsg
  rcases List.mem_singleton.1 hmsg with rfl
  exact msgInv_full _ _ _ _ _

/-- Witness for C1 (amended) at the demo state and a typing tick. -/
theorem C1_witness :
    (∀ msg ∈ (stepState demoBase .typingTick).messages,
      MsgInv msg ∧ msg.VisibleContent.length ≤ msg.Content.length ∧
      (msg.IsComplete = true → msg.VisibleContent = msg.Content)) ∧
    (∀ i, i < demoBase.messages.length →
      i < (stepState demoBase .typingTick).messages.length →
      ¬ summaryReplaces demoBase .typingTick i →
      (demoBase.messages.getD i default).VisibleContent.length ≤
        ((stepState demoBase .typingTick).messages.getD i
          default).VisibleContent.length) ∧
    (∀ (hasDB : Bool) (llmName : List Char) (now : Nat),
      ∀ msg ∈ (NewChatModel hasDB [] llmName now).messages, MsgInv msg) :=
  C1_amended_reveal_invariants demoBase .typingTick (by decide)

end Mcg
